import Mathlib

/-!
# Result agreement for distributed key generation

A verification development over two source files:

* `pkg/beacon/relay/gjkr/result.go`: the `Result` value type, `Result.Equals`,
  `publicKeysEqual`, `memberIDSlicesEqual`;
* `pkg/beacon/relay/dkg2/resultsubmission/member.go`: `ParticipantIndex` and
  `ResultSigningMember`.

Conventions of the embedding:

* a Go pointer `*T` is an `Option T` (`none` is `nil`); the source compares
  pointers only where one side is `nil`;
* a Go slice `[]T` is a `Slice T`, that is `Option (List T)`: `none` is the
  `nil` slice and `some []` a non-nil empty slice;
* a panic is `none`: `Slice.index` gives `none` where Go panics with an index
  out of range, a call of `(*bn256.G2).String` gives `none` where the library
  panics, and the functions that index or call `String` return `Option Bool`;
* types declared outside the two source files (`bn256.G2`, `MemberID`, the
  hash, key and signature types) are type parameters. The library method
  `(*bn256.G2).String` is a parameter too: `str : G2 → Option String` where only
  the returned string matters, and `strM : G2 → Option (String × G2)` where its
  effect on the key it is called on matters (the call may rewrite the stored
  point);
* where writes through pointers matter (`EqualsM`), a group key is an address
  into a heap of keys, so two operands may share a key.
-/

namespace bn256

/-- A stand-in for the curve point type `twistPoint` of the external library,
for concrete runs: a point of a projective line, stored as `x` over `z`; the
stored form is affine when `z` is `1`. -/
structure twistPoint where
  /-- The numerator. -/
  x : Nat
  /-- The denominator. -/
  z : Nat
deriving DecidableEq

/-- The library's `MakeAffine` on the stand-in: a point already in affine form
is left alone, any other is replaced by its affine form. -/
def twistPoint.MakeAffine (c : twistPoint) : twistPoint :=
  if c.z = 1 then c else ⟨c.x / c.z, 1⟩

/-- The external type `bn256.G2` (`type G2 struct { p *twistPoint }`): its zero
value `new(bn256.G2)` has `p == nil`. -/
structure G2 where
  /-- The point, `nil` in the zero value. -/
  p : Option twistPoint
deriving DecidableEq

/-- The library method `(*G2).String` with its effect on the key: it
dereferences `p` (and panics when `p` is `nil`), brings the stored point to
affine form and returns the encoding of the affine point. -/
def G2.StringM (e : G2) : Option (String × G2) :=
  match e.p with
  | none => none
  | some c => some ("bn256.G2" ++ toString c.MakeAffine.x, ⟨some c.MakeAffine⟩)

/-- The string returned by `(*G2).String`, `none` when it panics. -/
def G2.String (e : G2) : Option String :=
  e.StringM.map Prod.fst

end bn256

namespace gjkr

/-- A Go slice: `none` is the `nil` slice, `some l` a non-nil slice with the
elements `l`. -/
abbrev Slice (α : Type) : Type := Option (List α)

/-- The elements of a slice, in order; the `nil` slice has none. -/
def Slice.toList {α : Type} : Slice α → List α
  | none => []
  | some l => l

/-- Go `len(s)`; `len(nil)` is `0`. -/
def Slice.len {α : Type} (s : Slice α) : Nat :=
  s.toList.length

/-- Go `s[i]`; `none` stands for the index-out-of-range panic. -/
def Slice.index {α : Type} (s : Slice α) (i : Nat) : Option α :=
  s.toList[i]?

/-- Result of distributed key generation protocol (`type Result struct`).
`G2` stands for what the `*bn256.G2` field refers to: the key itself where only
values matter, an address where memory matters; `MemberID` is the member
identifier type. -/
structure Result (G2 MemberID : Type) where
  /-- Group public key generated by protocol execution (`*bn256.G2`). -/
  GroupPublicKey : Option G2
  /-- Disqualified members IDs. -/
  Disqualified : Slice MemberID
  /-- Inactive members IDs. -/
  Inactive : Slice MemberID
  /-- Group private key share (`*big.Int`). -/
  GroupPrivateKeyShare : Option Int

/-- The function `publicKeysEqual`: when both keys are non-nil, `String()` is
called on the expected key, then on the actual key, and the two strings are
compared; a panic of either call is a panic of the function. Otherwise the
pointers are compared, and a pointer comparison with a `nil` side holds exactly
when both sides are `nil`. -/
def publicKeysEqual {G2 : Type} (str : G2 → Option String)
    (expectedKey actualKey : Option G2) : Option Bool :=
  match expectedKey, actualKey with
  | some e, some a =>
    match str e with
    | none => none
    | some s =>
      match str a with
      | none => none
      | some t => some (s == t)
  | none, none => some true
  | _, _ => some false

/-- The body of `for i := range expectedSlice` in `memberIDSlicesEqual`, run
over the indices still to visit. -/
def memberIDSlicesEqual.loop {MemberID : Type} [DecidableEq MemberID]
    (expectedSlice actualSlice : Slice MemberID) : List Nat → Option Bool
  | [] => some true
  | i :: rest =>
    match expectedSlice.index i, actualSlice.index i with
    | some e, some a =>
      if e ≠ a then some false
      else memberIDSlicesEqual.loop expectedSlice actualSlice rest
    | _, _ => none

/-- The function `memberIDSlicesEqual`: the length test, then the index loop
over `0, …, len(expectedSlice) - 1`. -/
def memberIDSlicesEqual {MemberID : Type} [DecidableEq MemberID]
    (expectedSlice actualSlice : Slice MemberID) : Option Bool :=
  if expectedSlice.len ≠ actualSlice.len then some false
  else memberIDSlicesEqual.loop expectedSlice actualSlice (List.range expectedSlice.len)

/-- The method `(*Result).Equals`. With a `nil` operand the result is the
pointer comparison `r == r2`, true exactly when both are `nil`. -/
def Equals {G2 MemberID : Type} [DecidableEq MemberID] (str : G2 → Option String)
    (r r2 : Option (Result G2 MemberID)) : Option Bool :=
  match r, r2 with
  | none, none => some true
  | none, some _ => some false
  | some _, none => some false
  | some r, some r2 =>
    match publicKeysEqual str r.GroupPublicKey r2.GroupPublicKey with
    | none => none
    | some false => some false
    | some true =>
      match memberIDSlicesEqual r.Disqualified r2.Disqualified with
      | none => none
      | some false => some false
      | some true =>
        match memberIDSlicesEqual r.Inactive r2.Inactive with
        | none => none
        | some false => some false
        | some true => some true

/-- The memory `Equals` works on: its two operands, whose `GroupPublicKey`
fields hold addresses, and the heap of group keys those addresses refer to. -/
structure Memory (G2 MemberID : Type) where
  /-- The receiver `r`. -/
  r : Option (Result Nat MemberID)
  /-- The argument `r2`. -/
  r2 : Option (Result Nat MemberID)
  /-- The group key stored at each address. -/
  keys : Nat → G2

/-- A result read from memory, with the group key its address refers to. -/
def Memory.load {G2 MemberID : Type} (m : Memory G2 MemberID) (x : Result Nat MemberID) :
    Result G2 MemberID :=
  { GroupPublicKey := x.GroupPublicKey.map m.keys
    Disqualified := x.Disqualified
    Inactive := x.Inactive
    GroupPrivateKeyShare := x.GroupPrivateKeyShare }

/-- A call `key.String()` on the key at address `addr`: the library method
returns a string and may rewrite the key it is called on; `none` is a panic. -/
def StringM {G2 MemberID : Type} (strM : G2 → Option (String × G2)) (addr : Nat)
    (m : Memory G2 MemberID) : Option (String × Memory G2 MemberID) :=
  match strM (m.keys addr) with
  | none => none
  | some (s, k) => some (s, { m with keys := Function.update m.keys addr k })

/-- The function `publicKeysEqual` over memory: the two `String()` calls run in
order, each on the memory the previous one left. -/
def publicKeysEqualM {G2 MemberID : Type} (strM : G2 → Option (String × G2))
    (expectedKey actualKey : Option Nat) (m : Memory G2 MemberID) :
    Option (Bool × Memory G2 MemberID) :=
  match expectedKey, actualKey with
  | some e, some a =>
    match StringM strM e m with
    | none => none
    | some (s, m1) =>
      match StringM strM a m1 with
      | none => none
      | some (t, m2) => some (s == t, m2)
  | none, none => some (true, m)
  | _, _ => some (false, m)

/-- The method `(*Result).Equals` over memory: it returns the boolean together
with the memory it leaves, `none` being a panic. The source assigns to no field
of its operands; the only calls that can write are the `String()` calls inside
`publicKeysEqual`. -/
def EqualsM {G2 MemberID : Type} [DecidableEq MemberID] (strM : G2 → Option (String × G2))
    (m : Memory G2 MemberID) : Option (Bool × Memory G2 MemberID) :=
  match m.r, m.r2 with
  | none, none => some (true, m)
  | none, some _ => some (false, m)
  | some _, none => some (false, m)
  | some r, some r2 =>
    match publicKeysEqualM strM r.GroupPublicKey r2.GroupPublicKey m with
    | none => none
    | some (false, m1) => some (false, m1)
    | some (true, m1) =>
      match memberIDSlicesEqual r.Disqualified r2.Disqualified with
      | none => none
      | some false => some (false, m1)
      | some true =>
        match memberIDSlicesEqual r.Inactive r2.Inactive with
        | none => none
        | some false => some (false, m1)
        | some true => some (true, m1)

/-- Structural equality of two member ID sequences, as the documentation of
`memberIDSlicesEqual` words it: same length and same entries in the same
order. -/
def sameSequence {MemberID : Type} (xs ys : Slice MemberID) : Prop :=
  xs.len = ys.len ∧ ∀ i, i < xs.len → xs.index i = ys.index i

/-- Group public keys that are both absent, or both present with the same
`String()` encoding: the two calls return, and return the same string. -/
def sameKey {G2 : Type} (str : G2 → Option String) (k k2 : Option G2) : Prop :=
  (k = none ∧ k2 = none) ∨ ∃ e a s, k = some e ∧ k2 = some a ∧ str e = some s ∧ str a = some s

/-- A result whose Disqualified list names member 1 twice and whose Inactive
list names member 2 twice. -/
def duplicateResult : Result Nat Nat :=
  ⟨none, some [1, 1], some [2, 2], none⟩

/-- The zero value `new(bn256.G2)` of the library's key type. -/
def zeroKey : bn256.G2 :=
  ⟨none⟩

/-- A memory with two results that differ in the order of Disqualified; both
refer to group keys that denote the same point, stored at address 0 in
non-affine form and at address 1 in affine form. -/
def exampleMemory : Memory bn256.G2 Nat :=
  { r := some ⟨some 0, some [1, 2], none, some 5⟩
    r2 := some ⟨some 1, some [1, 2], some [], none⟩
    keys := fun addr => if addr = 0 then ⟨some ⟨6, 2⟩⟩ else ⟨some ⟨3, 1⟩⟩ }

end gjkr

namespace resultsubmission

/-- ParticipantIndex is an index of a participant in the group
(`type ParticipantIndex uint32`): an unsigned 32-bit integer. The source
comments that indexing starts with `1`; the type itself is all of `uint32`. -/
structure ParticipantIndex where
  /-- The numeric value. -/
  val : Nat
  /-- The `uint32` range. -/
  isLt : val < 2 ^ 32
deriving DecidableEq

/-- The assignment `m[k] = v` on the entries of a Go map: the entry of `k`, if
there is one, is replaced. -/
def assign {K V : Type} [DecidableEq K] (l : List (K × V)) (k : K) (v : V) : List (K × V) :=
  (k, v) :: l.filter fun e => e.1 ≠ k

/-- The statement `delete(m, k)` on the entries of a Go map. -/
def remove {K V : Type} [DecidableEq K] (l : List (K × V)) (k : K) : List (K × V) :=
  l.filter fun e => e.1 ≠ k

/-- The entry lists a Go program can build: the empty map, then assignments and
deletions. -/
inductive Built {K V : Type} [DecidableEq K] : List (K × V) → Prop
  | empty : Built []
  | assign (l : List (K × V)) (k : K) (v : V) : Built l → Built (assign l k v)
  | remove (l : List (K × V)) (k : K) : Built l → Built (remove l k)

/-- A Go map `map[K]V`: its entries, built by the map operations of the
language. -/
structure GoMap (K V : Type) [DecidableEq K] where
  /-- The stored key/value pairs. -/
  entries : List (K × V)
  /-- The entries come from the empty map by assignments and deletions. -/
  built : Built entries

/-- The empty map, `make(map[K]V)`. -/
def GoMap.empty {K V : Type} [DecidableEq K] : GoMap K V :=
  ⟨[], Built.empty⟩

/-- Go `m[k] = v`. -/
def GoMap.set {K V : Type} [DecidableEq K] (m : GoMap K V) (k : K) (v : V) : GoMap K V :=
  ⟨assign m.entries k v, Built.assign m.entries k v m.built⟩

/-- Go `v, ok := m[k]`. -/
def GoMap.get? {K V : Type} [DecidableEq K] (m : GoMap K V) (k : K) : Option V :=
  (m.entries.find? fun e => e.1 = k).map Prod.snd

/-- Go `len(m)`: the number of stored entries. -/
def GoMap.len {K V : Type} [DecidableEq K] (m : GoMap K V) : Nat :=
  m.entries.length

/-- The keys of the stored entries. -/
def GoMap.keys {K V : Type} [DecidableEq K] (m : GoMap K V) : List K :=
  m.entries.map Prod.fst

/-- ResultSigningMember represents a member sharing preferred DKG result hash
and signature over this hash with peer members (`type ResultSigningMember
struct`). `Handle` stands for `chain.Handle`, `DKGResultHash` for
`relayChain.DKGResultHash`, `PrivateKey` and `PublicKey` for the `ecdsa` key
types and `Signature` for the signature type of the package. -/
structure ResultSigningMember (Handle DKGResultHash PrivateKey PublicKey Signature : Type) where
  /-- The member's own index. -/
  index : ParticipantIndex
  /-- The chain handle. -/
  chainHandle : Handle
  /-- Hash of DKG result preferred by the current participant. -/
  dkgResultHash : DKGResultHash
  /-- Key used for signing the DKG result hash. -/
  privateKey : PrivateKey
  /-- Public keys of the peers. -/
  peerPublicKeys : GoMap ParticipantIndex PublicKey
  /-- Received valid signatures supporting the same DKG result as current's
  participants prefer. Contains also current's participant's signature. -/
  validResultSignatures : GoMap ParticipantIndex Signature

section operations

variable {Handle DKGResultHash PrivateKey PublicKey Signature : Type}

/-- Modelled from the spec: the operation `Verify(hash, endorsement,
claimedSignerIndex)` of the endorsement signer is not in the source. It fails
closed: false when the claimed signer is not a known peer, otherwise the
outcome of the signature check `verify` under that peer's public key. -/
def Verify (verify : PublicKey → DKGResultHash → Signature → Bool)
    (m : ResultSigningMember Handle DKGResultHash PrivateKey PublicKey Signature)
    (hash : DKGResultHash) (endorsement : Signature) (claimedSignerIndex : ParticipantIndex) :
    Bool :=
  match m.peerPublicKeys.get? claimedSignerIndex with
  | none => false
  | some publicKey => verify publicKey hash endorsement

/-- Modelled from the spec: the operation `AdmitOwn(hash, endorsement)` of the
quorum collector is not in the source. It inserts the signer's own endorsement
keyed by its own index. -/
def AdmitOwn (m : ResultSigningMember Handle DKGResultHash PrivateKey PublicKey Signature)
    (_hash : DKGResultHash) (endorsement : Signature) :
    ResultSigningMember Handle DKGResultHash PrivateKey PublicKey Signature :=
  { m with validResultSignatures := m.validResultSignatures.set m.index endorsement }

/-- Modelled from the spec: the operation `AdmitPeer(peerIndex, peerHash,
endorsement)` of the quorum collector is not in the source. It rejects, with no
state change, when `peerHash` is not the locally preferred hash or when
`Verify` fails; otherwise it inserts or overwrites the entry of `peerIndex`. -/
def AdmitPeer [DecidableEq DKGResultHash] (verify : PublicKey → DKGResultHash → Signature → Bool)
    (m : ResultSigningMember Handle DKGResultHash PrivateKey PublicKey Signature)
    (peerIndex : ParticipantIndex) (peerHash : DKGResultHash) (endorsement : Signature) :
    ResultSigningMember Handle DKGResultHash PrivateKey PublicKey Signature :=
  if peerHash ≠ m.dkgResultHash then m
  else if !Verify verify m peerHash endorsement peerIndex then m
  else { m with validResultSignatures := m.validResultSignatures.set peerIndex endorsement }

/-- Modelled from the spec: the predicate `QuorumSatisfied()` of the quorum
collector is not in the source. It compares the number of stored endorsements
with the honest threshold, an integer supplied from outside. -/
def QuorumSatisfied (honestThreshold : Int)
    (m : ResultSigningMember Handle DKGResultHash PrivateKey PublicKey Signature) : Bool :=
  decide (honestThreshold ≤ (m.validResultSignatures.len : Int))

/-- The number of distinct signer indices among the stored endorsements. -/
def distinctSigners
    (m : ResultSigningMember Handle DKGResultHash PrivateKey PublicKey Signature) : Nat :=
  m.validResultSignatures.keys.dedup.length

end operations

/-- The index with value `0`, a value of `uint32`. -/
def zeroIndex : ParticipantIndex :=
  ⟨0, by decide⟩

/-- A member whose own index is `0` and whose two maps have `0` as a key. -/
def zeroMember : ResultSigningMember Unit Nat Nat Nat Nat :=
  { index := zeroIndex
    chainHandle := ()
    dkgResultHash := 100
    privateKey := 10
    peerPublicKeys := GoMap.empty.set zeroIndex 10
    validResultSignatures := GoMap.empty.set zeroIndex 110 }

/-- A toy signature check for concrete runs: the signature of `hash` under the
key `publicKey` is their sum. -/
def sumVerify (publicKey hash signature : Nat) : Bool :=
  signature == publicKey + hash

/-- Participant `n` of a group of four. -/
def participant (n : Fin 5) : ParticipantIndex :=
  ⟨n.val, by have := n.isLt; omega⟩

/-- Participant 1 of a group of four at the start of the signing phase: the
public keys of participants 1 to 4 are 11 to 14, the preferred hash is 100,
and no endorsement is stored yet. -/
def firstOfFour : ResultSigningMember Unit Nat Nat Nat Nat :=
  { index := participant 1
    chainHandle := ()
    dkgResultHash := 100
    privateKey := 11
    peerPublicKeys :=
      (((GoMap.empty.set (participant 1) 11).set (participant 2) 12).set
        (participant 3) 13).set (participant 4) 14
    validResultSignatures := GoMap.empty }

/-- Participant 1 of a group of four after admitting its own endorsement and
the endorsements of participants 2 and 3. -/
def firstOfFourCollecting : ResultSigningMember Unit Nat Nat Nat Nat :=
  AdmitPeer sumVerify
    (AdmitPeer sumVerify (AdmitOwn firstOfFour 100 111) (participant 2) 100 112)
    (participant 3) 100 113

end resultsubmission
/-! ## Member ID sequences -/

namespace gjkr

theorem Slice.index_of_lt {α : Type} (s : Slice α) (i : Nat) (h : i < s.len) :
    ∃ x, s.index i = some x := by
  unfold Slice.index
  unfold Slice.len at h
  exact ⟨s.toList[i], List.getElem?_eq_getElem h⟩

theorem memberIDSlicesEqual.loop_eq {MemberID : Type} [DecidableEq MemberID]
    (xs ys : Slice MemberID) (is : List Nat) (h : ∀ i ∈ is, i < xs.len ∧ i < ys.len) :
    memberIDSlicesEqual.loop xs ys is = some (decide (∀ i ∈ is, xs.index i = ys.index i)) := by
  induction is with
  | nil => simp [memberIDSlicesEqual.loop]
  | cons i rest ih =>
    have hi := h i (List.mem_cons_self i rest)
    obtain ⟨x, hx⟩ := Slice.index_of_lt xs i hi.1
    obtain ⟨y, hy⟩ := Slice.index_of_lt ys i hi.2
    have hrest := ih fun j hj => h j (List.mem_cons_of_mem i hj)
    simp only [memberIDSlicesEqual.loop, hx, hy]
    by_cases hxy : x = y
    · subst hxy
      simp [hrest, hx, hy]
    · simp [hxy, hx, hy]

theorem sameSequence_iff_toList {MemberID : Type} (xs ys : Slice MemberID) :
    sameSequence xs ys ↔ xs.toList = ys.toList := by
  constructor
  · rintro ⟨hlen, hidx⟩
    apply List.ext_getElem?
    intro i
    by_cases hi : i < xs.len
    · exact hidx i hi
    · have h1 : xs.toList.length ≤ i := Nat.le_of_not_lt hi
      have h2 : ys.toList.length ≤ i := by
        unfold Slice.len at hlen
        omega
      rw [List.getElem?_eq_none h1, List.getElem?_eq_none h2]
  · intro h
    refine ⟨?_, ?_⟩
    · unfold Slice.len
      rw [h]
    · intro i _
      unfold Slice.index
      rw [h]

theorem memberIDSlicesEqual_eq_decide {MemberID : Type} [DecidableEq MemberID]
    (xs ys : Slice MemberID) :
    memberIDSlicesEqual xs ys = some (decide (xs.toList = ys.toList)) := by
  unfold memberIDSlicesEqual
  by_cases hlen : xs.len = ys.len
  · have hb : ∀ i ∈ List.range xs.len, i < xs.len ∧ i < ys.len := by
      intro i hi
      have := List.mem_range.mp hi
      omega
    rw [if_neg (by simpa using hlen), memberIDSlicesEqual.loop_eq xs ys _ hb]
    congr 1
    apply decide_eq_decide.mpr
    rw [← sameSequence_iff_toList]
    constructor
    · intro h
      exact ⟨hlen, fun i hi => h i (List.mem_range.mpr hi)⟩
    · intro h i hi
      exact h.2 i (List.mem_range.mp hi)
  · have hne : xs.toList ≠ ys.toList := by
      intro h
      apply hlen
      unfold Slice.len
      rw [h]
    rw [if_pos hlen]
    simp [hne]

theorem publicKeysEqual_iff_sameKey {G2 : Type} (str : G2 → Option String) (k k2 : Option G2) :
    publicKeysEqual str k k2 = some true ↔ sameKey str k k2 := by
  cases k with
  | none => cases k2 <;> simp [publicKeysEqual, sameKey]
  | some e =>
    cases k2 with
    | none => simp [publicKeysEqual, sameKey]
    | some a =>
      cases he : str e with
      | none => simp [publicKeysEqual, sameKey, he]
      | some s =>
        cases ha : str a with
        | none => simp [publicKeysEqual, sameKey, he, ha]
        | some t =>
          simp only [publicKeysEqual, sameKey, he, ha]
          constructor
          · intro h
            have hst : s = t := by simpa using h
            exact Or.inr ⟨e, a, s, rfl, rfl, he, hst ▸ ha⟩
          · rintro (⟨h, -⟩ | ⟨e2, a2, u, h1, h2, h3, h4⟩)
            · cases h
            · cases h1
              cases h2
              rw [he] at h3
              rw [ha] at h4
              cases h3
              cases h4
              simp

theorem publicKeysEqual_eq_none_iff {G2 : Type} (str : G2 → Option String) (k k2 : Option G2) :
    publicKeysEqual str k k2 = none ↔
      ∃ e a, k = some e ∧ k2 = some a ∧ (str e = none ∨ str a = none) := by
  cases k with
  | none => cases k2 <;> simp [publicKeysEqual]
  | some e =>
    cases k2 with
    | none => simp [publicKeysEqual]
    | some a =>
      simp only [publicKeysEqual]
      cases he : str e with
      | none => simp [he]
      | some s =>
        cases ha : str a with
        | none => simp [he, ha]
        | some t => simp [he, ha]

theorem publicKeysEqual_self {G2 : Type} (str : G2 → Option String) (k : Option G2)
    (h : ∀ e, k = some e → ∃ s, str e = some s) :
    publicKeysEqual str k k = some true := by
  cases k with
  | none => rfl
  | some e =>
    obtain ⟨s, hs⟩ := h e rfl
    simp [publicKeysEqual, hs]

theorem Equals_some_eq {G2 MemberID : Type} [DecidableEq MemberID] (str : G2 → Option String)
    (r r2 : Result G2 MemberID) :
    Equals str (some r) (some r2) =
      (publicKeysEqual str r.GroupPublicKey r2.GroupPublicKey).map fun v =>
        v && decide (r.Disqualified.toList = r2.Disqualified.toList)
          && decide (r.Inactive.toList = r2.Inactive.toList) := by
  simp only [Equals, memberIDSlicesEqual_eq_decide]
  cases publicKeysEqual str r.GroupPublicKey r2.GroupPublicKey with
  | none => rfl
  | some v =>
    cases v <;>
      by_cases hd : r.Disqualified.toList = r2.Disqualified.toList <;>
      by_cases hi : r.Inactive.toList = r2.Inactive.toList <;>
      simp [hd, hi]

theorem Equals_some_true_iff {G2 MemberID : Type} [DecidableEq MemberID]
    (str : G2 → Option String) (r r2 : Result G2 MemberID) :
    Equals str (some r) (some r2) = some true ↔
      publicKeysEqual str r.GroupPublicKey r2.GroupPublicKey = some true ∧
      r.Disqualified.toList = r2.Disqualified.toList ∧
      r.Inactive.toList = r2.Inactive.toList := by
  rw [Equals_some_eq]
  cases publicKeysEqual str r.GroupPublicKey r2.GroupPublicKey with
  | none => simp
  | some v => cases v <;> simp

theorem Equals_some_eq_none_iff {G2 MemberID : Type} [DecidableEq MemberID]
    (str : G2 → Option String) (r r2 : Result G2 MemberID) :
    Equals str (some r) (some r2) = none ↔
      publicKeysEqual str r.GroupPublicKey r2.GroupPublicKey = none := by
  rw [Equals_some_eq]
  simp

end gjkr

/-! ## Equality of results -/

namespace gjkr

/-- C1: for every pair of possibly nil results, `Equals` returns true if and
only if both are nil, or both are non-nil with group public keys both absent or
both present with the same `String()` encoding, Disqualified sequences of the
same length with the same element at every position, and Inactive sequences
likewise. It fails to return a boolean exactly when both keys are present and a
`String()` call panics; so it returns one whenever `String()` returns. -/
theorem Equals_true_iff {G2 MemberID : Type} [DecidableEq MemberID] (str : G2 → Option String)
    (a b : Option (Result G2 MemberID)) :
    (Equals str a b = some true ↔
      (a = none ∧ b = none) ∨
      ∃ ra rb, a = some ra ∧ b = some rb ∧
        sameKey str ra.GroupPublicKey rb.GroupPublicKey ∧
        sameSequence ra.Disqualified rb.Disqualified ∧
        sameSequence ra.Inactive rb.Inactive) ∧
    (Equals str a b = none ↔
      ∃ ra rb e k, a = some ra ∧ b = some rb ∧
        ra.GroupPublicKey = some e ∧ rb.GroupPublicKey = some k ∧
        (str e = none ∨ str k = none)) ∧
    ((∀ e, ∃ s, str e = some s) → ∃ v, Equals str a b = some v) := by
  have hnone : Equals str a b = none ↔
      ∃ ra rb e k, a = some ra ∧ b = some rb ∧
        ra.GroupPublicKey = some e ∧ rb.GroupPublicKey = some k ∧
        (str e = none ∨ str k = none) := by
    cases a with
    | none => cases b <;> simp [Equals]
    | some ra =>
      cases b with
      | none => simp [Equals]
      | some rb =>
        rw [Equals_some_eq_none_iff, publicKeysEqual_eq_none_iff]
        simp
  refine ⟨?_, hnone, ?_⟩
  · cases a with
    | none => cases b <;> simp [Equals]
    | some ra =>
      cases b with
      | none => simp [Equals]
      | some rb =>
        rw [Equals_some_true_iff, publicKeysEqual_iff_sameKey, ← sameSequence_iff_toList,
          ← sameSequence_iff_toList]
        simp
  · intro htotal
    cases h : Equals str a b with
    | some v => exact ⟨v, rfl⟩
    | none =>
      obtain ⟨ra, rb, e, k, -, -, -, -, hp⟩ := hnone.mp h
      obtain ⟨s, hs⟩ := htotal e
      obtain ⟨t, ht⟩ := htotal k
      rcases hp with hp | hp
      · rw [hs] at hp
        cases hp
      · rw [ht] at hp
        cases hp

/-- C1 at an encoding that always returns: `Equals` returns a boolean. -/
theorem Equals_true_iff_witness :
    ∃ v, Equals (fun n : Nat => some (toString n))
      (some (⟨some 7, some [1], none, some 5⟩ : Result Nat Nat))
      (some ⟨some 8, some [1], none, none⟩) = some v :=
  (Equals_true_iff (fun n : Nat => some (toString n))
    (some ⟨some 7, some [1], none, some 5⟩) (some ⟨some 8, some [1], none, none⟩)).2.2
    fun e => ⟨toString e, rfl⟩

/-- C2: `Equals(nil, nil)` is true, and for every non-nil result `x`, whatever
its fields, `Equals(nil, x)` and `Equals(x, nil)` are false. -/
theorem Equals_nil_operands {G2 MemberID : Type} [DecidableEq MemberID]
    (str : G2 → Option String) :
    Equals str (none : Option (Result G2 MemberID)) none = some true ∧
    (∀ x : Result G2 MemberID,
      Equals str none (some x) = some false ∧ Equals str (some x) none = some false) ∧
    Equals str none (some (⟨none, none, none, none⟩ : Result G2 MemberID)) = some false ∧
    Equals str (some (⟨none, some [], some [], none⟩ : Result G2 MemberID)) none = some false := by
  refine ⟨rfl, fun x => ⟨rfl, rfl⟩, rfl, rfl⟩

/-- C3 (refuted as stated): two results with the same group public key, the
same Disqualified and the same Inactive, differing in their private key shares,
do not compare equal when the key is a zero-value `bn256.G2`: the `String()`
call panics. -/
theorem Equals_share_zero_key_counterexample :
    Equals bn256.G2.String
      (some (⟨some zeroKey, some [1], none, some 5⟩ : Result bn256.G2 Nat))
      (some ⟨some zeroKey, some [1], none, some 6⟩) = none ∧
    Equals bn256.G2.String
      (some (⟨some zeroKey, some [1], none, some 5⟩ : Result bn256.G2 Nat))
      (some ⟨some zeroKey, some [1], none, some 6⟩) ≠ some true := by
  constructor
  · rfl
  · intro h
    cases h

/-- C3 (amended): the outcome of `Equals` does not depend on the private key
share: replacing `GroupPrivateKeyShare` of either operand, or of both, by any
value (nil included) leaves it unchanged; and two results with the same group
public key, Disqualified and Inactive compare equal whatever their shares,
provided `String()` returns on the group key when there is one. -/
theorem Equals_ignores_GroupPrivateKeyShare {G2 MemberID : Type} [DecidableEq MemberID]
    (str : G2 → Option String) (a b : Result G2 MemberID) (s s2 : Option Int) :
    Equals str (some { a with GroupPrivateKeyShare := s })
        (some { b with GroupPrivateKeyShare := s2 }) = Equals str (some a) (some b) ∧
    Equals str (some { a with GroupPrivateKeyShare := s }) (some b)
      = Equals str (some a) (some b) ∧
    Equals str (some a) (some { b with GroupPrivateKeyShare := s2 })
      = Equals str (some a) (some b) ∧
    ((∀ k, a.GroupPublicKey = some k → ∃ t, str k = some t) →
      Equals str (some { a with GroupPrivateKeyShare := s })
        (some { a with GroupPrivateKeyShare := s2 }) = some true) := by
  refine ⟨?_, ?_, ?_, ?_⟩
  · simp only [Equals_some_eq]
  · simp only [Equals_some_eq]
  · simp only [Equals_some_eq]
  · intro hstr
    exact (Equals_some_true_iff str _ _).mpr
      ⟨publicKeysEqual_self str a.GroupPublicKey hstr, rfl, rfl⟩

/-- C3 (amended) at two results with the same well-formed key and lists, and
shares 5 and 6. -/
theorem Equals_ignores_GroupPrivateKeyShare_witness :
    Equals bn256.G2.String
      (some (⟨some ⟨some ⟨6, 2⟩⟩, some [1], none, some 5⟩ : Result bn256.G2 Nat))
      (some ⟨some ⟨some ⟨6, 2⟩⟩, some [1], none, some 6⟩) = some true :=
  (Equals_ignores_GroupPrivateKeyShare bn256.G2.String
    (⟨some ⟨some ⟨6, 2⟩⟩, some [1], none, none⟩ : Result bn256.G2 Nat) ⟨none, none, none, none⟩
    (some 5) (some 6)).2.2.2
    fun k hk => by
      cases hk
      exact ⟨_, rfl⟩

/-- C4 (refuted as stated): two results with the same group key and the same
Inactive list, whose Disqualified lists are `[1, 2]` and `[2, 1]`: when the key
is a zero-value `bn256.G2`, `Equals` does not return false, it panics in
`publicKeysEqual` before it reads the lists. -/
theorem Equals_order_zero_key_counterexample :
    ([1, 2] : List Nat).Perm [2, 1] ∧
    Equals bn256.G2.String
      (some (⟨some zeroKey, some [1, 2], some [3], none⟩ : Result bn256.G2 Nat))
      (some ⟨some zeroKey, some [2, 1], some [3], none⟩) = none ∧
    Equals bn256.G2.String
      (some (⟨some zeroKey, some [1, 2], some [3], none⟩ : Result bn256.G2 Nat))
      (some ⟨some zeroKey, some [2, 1], some [3], none⟩) ≠ some false := by
  refine ⟨List.Perm.swap 2 1 [], rfl, ?_⟩
  intro h
  cases h

/-- C4 (amended): equality is order-sensitive: two non-nil results with the
same group key and the same Inactive list, whose Disqualified lists are
permutations of each other but not the same sequence, are not equal: `Equals`
returns false, provided `String()` returns on the group key when there is
one. -/
theorem Equals_order_sensitive {G2 MemberID : Type} [DecidableEq MemberID]
    (str : G2 → Option String) (a b : Result G2 MemberID)
    (hkey : a.GroupPublicKey = b.GroupPublicKey)
    (hstr : ∀ k, a.GroupPublicKey = some k → ∃ t, str k = some t)
    (_hinactive : a.Inactive = b.Inactive)
    (_hperm : a.Disqualified.toList.Perm b.Disqualified.toList)
    (hne : a.Disqualified.toList ≠ b.Disqualified.toList) :
    Equals str (some a) (some b) = some false := by
  rw [Equals_some_eq, ← hkey, publicKeysEqual_self str a.GroupPublicKey hstr]
  simp [hne]

/-- C4 (amended) at the lists `[1, 2]` and `[2, 1]` under a well-formed key. -/
theorem Equals_order_sensitive_witness :
    ([1, 2] : List Nat).Perm [2, 1] ∧ ([1, 2] : List Nat) ≠ [2, 1] ∧
    Equals bn256.G2.String
      (some (⟨some ⟨some ⟨6, 2⟩⟩, some [1, 2], some [3], some 5⟩ : Result bn256.G2 Nat))
      (some ⟨some ⟨some ⟨6, 2⟩⟩, some [2, 1], some [3], some 5⟩) = some false :=
  ⟨List.Perm.swap 2 1 [], by decide,
    Equals_order_sensitive bn256.G2.String
      ⟨some ⟨some ⟨6, 2⟩⟩, some [1, 2], some [3], some 5⟩
      ⟨some ⟨some ⟨6, 2⟩⟩, some [2, 1], some [3], some 5⟩
      rfl (fun k hk => by cases hk; exact ⟨_, rfl⟩) rfl (List.Perm.swap 2 1 []) (by decide)⟩

/-- C5: a nil group public key is equal only to another nil group public key:
when exactly one of two non-nil results has a nil `GroupPublicKey`, `Equals` is
false in both argument orders, whatever the lists; and
`publicKeysEqual(nil, nil)` is true. -/
theorem Equals_nil_GroupPublicKey {G2 MemberID : Type} [DecidableEq MemberID]
    (str : G2 → Option String) (a b : Result G2 MemberID)
    (hone : (a.GroupPublicKey = none ∧ b.GroupPublicKey ≠ none) ∨
      (a.GroupPublicKey ≠ none ∧ b.GroupPublicKey = none)) :
    Equals str (some a) (some b) = some false ∧
    Equals str (some b) (some a) = some false ∧
    publicKeysEqual str (none : Option G2) none = some true := by
  simp only [Equals_some_eq]
  rcases hone with ⟨ha, hb⟩ | ⟨ha, hb⟩
  · obtain ⟨k, hk⟩ := Option.ne_none_iff_exists'.mp hb
    simp [ha, hk, publicKeysEqual]
  · obtain ⟨k, hk⟩ := Option.ne_none_iff_exists'.mp ha
    simp [hb, hk, publicKeysEqual]

/-- C5 at a result without group key and a result with one, equal lists. -/
theorem Equals_nil_GroupPublicKey_witness :
    Equals (fun n : Nat => some (toString n))
      (some (⟨none, some [1], none, none⟩ : Result Nat Nat))
      (some ⟨some 7, some [1], none, none⟩) = some false ∧
    Equals (fun n : Nat => some (toString n))
      (some (⟨some 7, some [1], none, none⟩ : Result Nat Nat))
      (some ⟨none, some [1], none, none⟩) = some false ∧
    publicKeysEqual (fun n : Nat => some (toString n)) none none = some true :=
  Equals_nil_GroupPublicKey (fun n : Nat => some (toString n))
    ⟨none, some [1], none, none⟩ ⟨some 7, some [1], none, none⟩
    (Or.inl ⟨rfl, by simp⟩)

/-- C6: `memberIDSlicesEqual` returns true if and only if the two slices have
the same length and the same entries in the same order, and false otherwise:
the index loop computes structural equality of the two sequences. -/
theorem memberIDSlicesEqual_iff_sameSequence {MemberID : Type} [DecidableEq MemberID]
    (xs ys : Slice MemberID) :
    (memberIDSlicesEqual xs ys = some true ↔ sameSequence xs ys) ∧
    (memberIDSlicesEqual xs ys = some false ↔ ¬ sameSequence xs ys) ∧
    memberIDSlicesEqual xs ys = some (decide (xs.toList = ys.toList)) := by
  rw [memberIDSlicesEqual_eq_decide, sameSequence_iff_toList]
  simp

end gjkr

/-! ## Equality of results over memory -/

namespace bn256

theorem twistPoint.MakeAffine_idem (c : twistPoint) : c.MakeAffine.MakeAffine = c.MakeAffine := by
  unfold twistPoint.MakeAffine
  by_cases h : c.z = 1
  · simp [h]
  · simp [h]

theorem StringM_idem (k : G2) (s : String) (k2 : G2) (h : k.StringM = some (s, k2)) :
    k2.StringM = some (s, k2) := by
  cases k with
  | mk p =>
    cases p with
    | none => cases h
    | some c =>
      simp only [G2.StringM, Option.some.injEq, Prod.mk.injEq] at h
      obtain ⟨hs, hk⟩ := h
      subst hs hk
      simp [G2.StringM, twistPoint.MakeAffine_idem]

end bn256

namespace gjkr

section memory

variable {G2 MemberID : Type}

theorem Memory.update_self (m : Memory G2 MemberID) (addr : Nat) :
    ({ m with keys := Function.update m.keys addr (m.keys addr) } : Memory G2 MemberID) = m := by
  cases m
  simp

theorem StringM_frame (strM : G2 → Option (String × G2)) (addr : Nat) (m m1 : Memory G2 MemberID)
    (s : String) (h : StringM strM addr m = some (s, m1)) :
    m1.r = m.r ∧ m1.r2 = m.r2 ∧ (∀ x, x ≠ addr → m1.keys x = m.keys x) ∧
    strM (m.keys addr) = some (s, m1.keys addr) := by
  unfold StringM at h
  cases hk : strM (m.keys addr) with
  | none =>
    rw [hk] at h
    cases h
  | some p =>
    obtain ⟨t, k⟩ := p
    rw [hk] at h
    simp only [Option.some.injEq, Prod.mk.injEq] at h
    obtain ⟨hs, hm⟩ := h
    subst hs hm
    exact ⟨rfl, rfl, fun x hx => Function.update_noteq hx k m.keys, by simp⟩

theorem StringM_of_fixed (strM : G2 → Option (String × G2)) (addr : Nat) (m : Memory G2 MemberID)
    (s : String) (h : strM (m.keys addr) = some (s, m.keys addr)) :
    StringM strM addr m = some (s, m) := by
  unfold StringM
  rw [h]
  simp only [Option.some.injEq, Prod.mk.injEq, true_and]
  exact Memory.update_self m addr

theorem StringM_eq_none (strM : G2 → Option (String × G2)) (addr : Nat) (m : Memory G2 MemberID) :
    StringM strM addr m = none ↔ strM (m.keys addr) = none := by
  unfold StringM
  cases strM (m.keys addr) with
  | none => simp
  | some p => simp

theorem publicKeysEqualM_frame (strM : G2 → Option (String × G2)) (ke ka : Option Nat)
    (m m1 : Memory G2 MemberID) (v : Bool)
    (h : publicKeysEqualM strM ke ka m = some (v, m1)) :
    m1.r = m.r ∧ m1.r2 = m.r2 ∧
    (∀ x, ke ≠ some x → ka ≠ some x → m1.keys x = m.keys x) ∧
    ((ke = none ∨ ka = none) → m1 = m) := by
  cases ke with
  | none =>
    cases ka <;>
    · simp only [publicKeysEqualM, Option.some.injEq, Prod.mk.injEq] at h
      obtain ⟨-, hm⟩ := h
      subst hm
      exact ⟨rfl, rfl, fun _ _ _ => rfl, fun _ => rfl⟩
  | some e =>
    cases ka with
    | none =>
      simp only [publicKeysEqualM, Option.some.injEq, Prod.mk.injEq] at h
      obtain ⟨-, hm⟩ := h
      subst hm
      exact ⟨rfl, rfl, fun _ _ _ => rfl, fun _ => rfl⟩
    | some a =>
      simp only [publicKeysEqualM] at h
      cases h1 : StringM strM e m with
      | none =>
        rw [h1] at h
        cases h
      | some p1 =>
        obtain ⟨s, m2⟩ := p1
        rw [h1] at h
        simp only at h
        cases h2 : StringM strM a m2 with
        | none =>
          rw [h2] at h
          cases h
        | some p2 =>
          obtain ⟨t, m3⟩ := p2
          rw [h2] at h
          simp only [Option.some.injEq, Prod.mk.injEq] at h
          obtain ⟨-, hm⟩ := h
          subst hm
          obtain ⟨hr, hr2, hk, -⟩ := StringM_frame strM e m m2 s h1
          obtain ⟨hr', hr2', hk', -⟩ := StringM_frame strM a m2 m3 t h2
          refine ⟨hr'.trans hr, hr2'.trans hr2, ?_, ?_⟩
          · intro x hxe hxa
            have hxe2 : x ≠ e := fun hx => hxe (by rw [hx])
            have hxa2 : x ≠ a := fun hx => hxa (by rw [hx])
            rw [hk' x hxa2, hk x hxe2]
          · rintro (h | h) <;> cases h

theorem publicKeysEqualM_again (strM : G2 → Option (String × G2))
    (hidem : ∀ k s k2, strM k = some (s, k2) → strM k2 = some (s, k2))
    (ke ka : Option Nat) (m m1 : Memory G2 MemberID) (v : Bool)
    (h : publicKeysEqualM strM ke ka m = some (v, m1)) :
    publicKeysEqualM strM ke ka m1 = some (v, m1) := by
  cases ke with
  | none =>
    cases ka <;>
    · simp only [publicKeysEqualM, Option.some.injEq, Prod.mk.injEq] at h ⊢
      exact ⟨h.1, trivial⟩
  | some e =>
    cases ka with
    | none =>
      simp only [publicKeysEqualM, Option.some.injEq, Prod.mk.injEq] at h ⊢
      exact ⟨h.1, trivial⟩
    | some a =>
      simp only [publicKeysEqualM] at h
      cases h1 : StringM strM e m with
      | none =>
        rw [h1] at h
        cases h
      | some p1 =>
        obtain ⟨s, m2⟩ := p1
        rw [h1] at h
        simp only at h
        cases h2 : StringM strM a m2 with
        | none =>
          rw [h2] at h
          cases h
        | some p2 =>
          obtain ⟨t, m3⟩ := p2
          rw [h2] at h
          simp only [Option.some.injEq, Prod.mk.injEq] at h
          obtain ⟨hv, hm⟩ := h
          subst hm
          obtain ⟨-, -, -, hs⟩ := StringM_frame strM e m m2 s h1
          obtain ⟨-, -, hk', ht⟩ := StringM_frame strM a m2 m3 t h2
          have hfix2 : strM (m2.keys e) = some (s, m2.keys e) := hidem _ _ _ hs
          have hfixa : strM (m3.keys a) = some (t, m3.keys a) := hidem _ _ _ ht
          have hfixe : strM (m3.keys e) = some (s, m3.keys e) := by
            by_cases hae : e = a
            · subst hae
              have h3 := StringM_of_fixed strM e m2 s hfix2
              rw [h3] at h2
              simp only [Option.some.injEq, Prod.mk.injEq] at h2
              rw [← h2.2]
              exact hfix2
            · rw [hk' e hae]
              exact hfix2
          simp only [publicKeysEqualM, StringM_of_fixed strM e m3 s hfixe,
            StringM_of_fixed strM a m3 t hfixa, hv]

theorem publicKeysEqualM_value (strM : G2 → Option (String × G2))
    (hidem : ∀ k s k2, strM k = some (s, k2) → strM k2 = some (s, k2))
    (ke ka : Option Nat) (m : Memory G2 MemberID) :
    (publicKeysEqualM strM ke ka m).map Prod.fst
      = publicKeysEqual (fun k => (strM k).map Prod.fst) (ke.map m.keys) (ka.map m.keys) := by
  cases ke with
  | none => cases ka <;> rfl
  | some e =>
    cases ka with
    | none => rfl
    | some a =>
      simp only [publicKeysEqualM, publicKeysEqual, Option.map_some']
      cases h1 : StringM strM e m with
      | none =>
        rw [(StringM_eq_none strM e m).mp h1]
        rfl
      | some p1 =>
        obtain ⟨s, m2⟩ := p1
        obtain ⟨-, -, hk, hs⟩ := StringM_frame strM e m m2 s h1
        have hfix2 : strM (m2.keys e) = some (s, m2.keys e) := hidem _ _ _ hs
        have hsame : (strM (m2.keys a)).map Prod.fst = (strM (m.keys a)).map Prod.fst := by
          by_cases hae : a = e
          · rw [hae, hfix2, hs]
          · rw [hk a hae]
        rw [hs]
        simp only [Option.map_some']
        cases h2 : StringM strM a m2 with
        | none =>
          have := (StringM_eq_none strM a m2).mp h2
          rw [this] at hsame
          rw [← hsame]
          rfl
        | some p2 =>
          obtain ⟨t, m3⟩ := p2
          obtain ⟨-, -, -, ht⟩ := StringM_frame strM a m2 m3 t h2
          rw [ht] at hsame
          rw [← hsame]
          rfl

theorem EqualsM_some_eq [DecidableEq MemberID] (strM : G2 → Option (String × G2))
    (m : Memory G2 MemberID) (r r2 : Result Nat MemberID)
    (hr : m.r = some r) (hr2 : m.r2 = some r2) :
    EqualsM strM m =
      (publicKeysEqualM strM r.GroupPublicKey r2.GroupPublicKey m).map fun p =>
        (p.1 && decide (r.Disqualified.toList = r2.Disqualified.toList)
          && decide (r.Inactive.toList = r2.Inactive.toList), p.2) := by
  simp only [EqualsM, hr, hr2, memberIDSlicesEqual_eq_decide]
  cases publicKeysEqualM strM r.GroupPublicKey r2.GroupPublicKey m with
  | none => rfl
  | some p =>
    obtain ⟨v, m1⟩ := p
    cases v <;>
      by_cases hd : r.Disqualified.toList = r2.Disqualified.toList <;>
      by_cases hi : r.Inactive.toList = r2.Inactive.toList <;>
      simp [hd, hi]

end memory

end gjkr

namespace gjkr

section memory

variable {G2 MemberID : Type}

theorem publicKeysEqualM_no_write (strM : G2 → Option (String × G2))
    (hpure : ∀ k s k2, strM k = some (s, k2) → k2 = k)
    (ke ka : Option Nat) (m m1 : Memory G2 MemberID) (v : Bool)
    (h : publicKeysEqualM strM ke ka m = some (v, m1)) : m1 = m := by
  have hstep : ∀ (addr : Nat) (x y : Memory G2 MemberID) (s : String),
      StringM strM addr x = some (s, y) → y = x := by
    intro addr x y s hxy
    obtain ⟨-, -, -, hs⟩ := StringM_frame strM addr x y s hxy
    have hk := hpure _ _ _ hs
    rw [hk] at hs
    have := StringM_of_fixed strM addr x s hs
    rw [this] at hxy
    simp only [Option.some.injEq, Prod.mk.injEq] at hxy
    exact hxy.2.symm
  cases ke with
  | none => exact (publicKeysEqualM_frame strM none ka m m1 v h).2.2.2 (Or.inl rfl)
  | some e =>
    cases ka with
    | none => exact (publicKeysEqualM_frame strM (some e) none m m1 v h).2.2.2 (Or.inr rfl)
    | some a =>
      simp only [publicKeysEqualM] at h
      cases h1 : StringM strM e m with
      | none =>
        rw [h1] at h
        cases h
      | some p1 =>
        obtain ⟨s, m2⟩ := p1
        rw [h1] at h
        simp only at h
        cases h2 : StringM strM a m2 with
        | none =>
          rw [h2] at h
          cases h
        | some p2 =>
          obtain ⟨t, m3⟩ := p2
          rw [h2] at h
          simp only [Option.some.injEq, Prod.mk.injEq] at h
          rw [← h.2, hstep a m2 m3 t h2, hstep e m m2 s h1]

theorem EqualsM_cases [DecidableEq MemberID] (strM : G2 → Option (String × G2))
    (m m1 : Memory G2 MemberID) (v : Bool) (h : EqualsM strM m = some (v, m1)) :
    ((m.r = none ∨ m.r2 = none) ∧ m1 = m) ∨
    ∃ r r2 v0, m.r = some r ∧ m.r2 = some r2 ∧
      publicKeysEqualM strM r.GroupPublicKey r2.GroupPublicKey m = some (v0, m1) ∧
      v = (v0 && decide (r.Disqualified.toList = r2.Disqualified.toList)
        && decide (r.Inactive.toList = r2.Inactive.toList)) := by
  cases hr : m.r with
  | none =>
    cases hr2 : m.r2 <;>
    · simp only [EqualsM, hr, hr2, Option.some.injEq, Prod.mk.injEq] at h
      exact Or.inl ⟨Or.inl rfl, h.2.symm⟩
  | some r =>
    cases hr2 : m.r2 with
    | none =>
      simp only [EqualsM, hr, hr2, Option.some.injEq, Prod.mk.injEq] at h
      exact Or.inl ⟨Or.inr rfl, h.2.symm⟩
    | some r2 =>
      rw [EqualsM_some_eq strM m r r2 hr hr2] at h
      cases hp : publicKeysEqualM strM r.GroupPublicKey r2.GroupPublicKey m with
      | none =>
        rw [hp] at h
        cases h
      | some p =>
        obtain ⟨v0, m2⟩ := p
        rw [hp] at h
        simp only [Option.map_some', Option.some.injEq, Prod.mk.injEq] at h
        obtain ⟨hv, hm⟩ := h
        subst hm
        exact Or.inr ⟨r, r2, v0, rfl, rfl, hp, hv.symm⟩

/-- C7 (refuted as stated): `Equals` on two results whose group keys are stored
at addresses 0 and 1 returns true and leaves the key at address 0, stored in
non-affine form before the call, rewritten in affine form: the two `String()`
calls write memory. -/
theorem EqualsM_rewrites_key_counterexample :
    exampleMemory.r.bind (fun x => x.GroupPublicKey) = some 0 ∧
    exampleMemory.keys 0 = ⟨some ⟨6, 2⟩⟩ ∧
    (EqualsM bn256.G2.StringM exampleMemory).map (fun p => (p.1, p.2.keys 0))
      = some (true, ⟨some ⟨3, 1⟩⟩) ∧
    ¬ ∃ v, EqualsM bn256.G2.StringM exampleMemory = some (v, exampleMemory) := by
  refine ⟨rfl, rfl, by decide, ?_⟩
  rintro ⟨v, hv⟩
  have h : (EqualsM bn256.G2.StringM exampleMemory).map (fun p => p.2.keys 0)
      = some (exampleMemory.keys 0) := by
    rw [hv]
    rfl
  revert h
  decide

/-- C7 (amended): `Equals` assigns to no field of its operands and writes no
memory other than, through `String()`, the two group keys. When it returns,
both operands have all their fields as before (the group key fields hold the
same addresses) and every key at another address is as before. When an operand
is nil or a group key is nil, it returns and leaves memory as it was. When
`String()` does not write, memory is as it was. When `String()` is idempotent
(on the key it left it returns the same string and leaves the key alone),
running `Equals` again on the memory it left returns the same result and
changes nothing, and the returned value or panic is that of `Equals` on the
operands read from memory. -/
theorem EqualsM_frame [DecidableEq MemberID] (strM : G2 → Option (String × G2))
    (m : Memory G2 MemberID) :
    (∀ v m1, EqualsM strM m = some (v, m1) →
      m1.r = m.r ∧ m1.r2 = m.r2 ∧
      ∀ addr, m.r.bind (fun x => x.GroupPublicKey) ≠ some addr →
        m.r2.bind (fun x => x.GroupPublicKey) ≠ some addr → m1.keys addr = m.keys addr) ∧
    ((m.r.bind (fun x => x.GroupPublicKey) = none ∨
        m.r2.bind (fun x => x.GroupPublicKey) = none) →
      ∃ v, EqualsM strM m = some (v, m)) ∧
    ((∀ k s k2, strM k = some (s, k2) → k2 = k) →
      ∀ v m1, EqualsM strM m = some (v, m1) → m1 = m) ∧
    ((∀ k s k2, strM k = some (s, k2) → strM k2 = some (s, k2)) →
      (∀ v m1, EqualsM strM m = some (v, m1) → EqualsM strM m1 = some (v, m1)) ∧
      (EqualsM strM m).map Prod.fst
        = Equals (fun k => (strM k).map Prod.fst) (m.r.map m.load) (m.r2.map m.load)) := by
  refine ⟨?_, ?_, ?_, ?_⟩
  · intro v m1 h
    rcases EqualsM_cases strM m m1 v h with ⟨-, hm⟩ | ⟨r, r2, v0, hr, hr2, hp, -⟩
    · rw [hm]
      exact ⟨rfl, rfl, fun _ _ _ => rfl⟩
    · obtain ⟨h1, h2, h3, -⟩ := publicKeysEqualM_frame strM _ _ m m1 v0 hp
      refine ⟨h1, h2, ?_⟩
      intro addr ha ha2
      rw [hr] at ha
      rw [hr2] at ha2
      exact h3 addr ha ha2
  · intro hnil
    cases hr : m.r with
    | none =>
      cases hr2 : m.r2 with
      | none => exact ⟨true, by simp only [EqualsM, hr, hr2]⟩
      | some r2 => exact ⟨false, by simp only [EqualsM, hr, hr2]⟩
    | some r =>
      cases hr2 : m.r2 with
      | none => exact ⟨false, by simp only [EqualsM, hr, hr2]⟩
      | some r2 =>
        rw [hr, hr2] at hnil
        simp only [Option.some_bind] at hnil
        rw [EqualsM_some_eq strM m r r2 hr hr2]
        rcases hnil with hk | hk
        · rw [hk]
          cases r2.GroupPublicKey <;> exact ⟨_, rfl⟩
        · rw [hk]
          cases r.GroupPublicKey <;> exact ⟨_, rfl⟩
  · intro hpure v m1 h
    rcases EqualsM_cases strM m m1 v h with ⟨-, hm⟩ | ⟨r, r2, v0, -, -, hp, -⟩
    · exact hm
    · exact publicKeysEqualM_no_write strM hpure _ _ m m1 v0 hp
  · intro hidem
    constructor
    · intro v m1 h
      rcases EqualsM_cases strM m m1 v h with ⟨-, hm⟩ | ⟨r, r2, v0, hr, hr2, hp, hv⟩
      · rw [hm]
        exact hm ▸ h
      · obtain ⟨h1, h2, -, -⟩ := publicKeysEqualM_frame strM _ _ m m1 v0 hp
        rw [EqualsM_some_eq strM m1 r r2 (h1.trans hr) (h2.trans hr2),
          publicKeysEqualM_again strM hidem _ _ m m1 v0 hp, hv]
        rfl
    · cases hr : m.r with
      | none => cases hr2 : m.r2 <;> simp only [EqualsM, hr, hr2] <;> rfl
      | some r =>
        cases hr2 : m.r2 with
        | none =>
          simp only [EqualsM, hr, hr2]
          rfl
        | some r2 =>
          rw [EqualsM_some_eq strM m r r2 hr hr2]
          simp only [Option.map_some', Equals_some_eq, Option.map_map]
          have hval := publicKeysEqualM_value strM hidem r.GroupPublicKey r2.GroupPublicKey m
          simp only [Memory.load]
          rw [← hval, Option.map_map]
          rfl

/-- C7 (amended) at the library stand-in, whose `String()` is idempotent, and a
memory with two results: the value `Equals` returns over memory is the value of
the comparison of the two results read from memory. -/
theorem EqualsM_frame_witness :
    (EqualsM bn256.G2.StringM exampleMemory).map Prod.fst
      = Equals (fun k => (bn256.G2.StringM k).map Prod.fst)
          (exampleMemory.r.map exampleMemory.load) (exampleMemory.r2.map exampleMemory.load) :=
  ((EqualsM_frame bn256.G2.StringM exampleMemory).2.2.2 bn256.StringM_idem).2

end memory

end gjkr

/-! ## The signing member -/

namespace resultsubmission

theorem Built.keys_nodup_of_built {K V : Type} [DecidableEq K] {l : List (K × V)} (h : Built l) :
    (l.map Prod.fst).Nodup := by
  induction h with
  | empty => simp
  | assign l k v _ ih =>
    unfold resultsubmission.assign
    rw [List.map_cons, List.nodup_cons]
    constructor
    · intro hmem
      obtain ⟨e, he, hk⟩ := List.mem_map.mp hmem
      have := (List.mem_filter.mp he).2
      simp at this
      exact this hk
    · exact List.Nodup.sublist (List.Sublist.map Prod.fst (List.filter_sublist l)) ih
  | remove l k _ ih =>
    unfold resultsubmission.remove
    exact List.Nodup.sublist (List.Sublist.map Prod.fst (List.filter_sublist l)) ih

theorem GoMap.nodup_keys {K V : Type} [DecidableEq K] (m : GoMap K V) : m.keys.Nodup :=
  m.built.keys_nodup_of_built

theorem GoMap.value_unique {K V : Type} [DecidableEq K] (m : GoMap K V) (k : K) (v v2 : V)
    (h : (k, v) ∈ m.entries) (h2 : (k, v2) ∈ m.entries) : v = v2 := by
  have hnd : m.entries.Pairwise fun a b => a.1 ≠ b.1 :=
    List.pairwise_map.mp m.nodup_keys
  by_contra hne
  have hne2 : (k, v) ≠ (k, v2) := fun he => hne (Prod.mk.inj he).2
  have hsymm : Symmetric fun a b : K × V => a.1 ≠ b.1 := fun _ _ hab => Ne.symm hab
  exact List.Pairwise.forall hsymm hnd h h2 hne2 rfl

section claims

variable {Handle DKGResultHash PrivateKey PublicKey Signature : Type}

theorem AdmitOwn_entries
    (m : ResultSigningMember Handle DKGResultHash PrivateKey PublicKey Signature)
    (hash : DKGResultHash) (endorsement : Signature) :
    (AdmitOwn m hash endorsement).validResultSignatures.entries
      = assign m.validResultSignatures.entries m.index endorsement ∧
    (AdmitOwn m hash endorsement).peerPublicKeys = m.peerPublicKeys ∧
    (AdmitOwn m hash endorsement).dkgResultHash = m.dkgResultHash ∧
    (AdmitOwn m hash endorsement).index = m.index :=
  ⟨rfl, rfl, rfl, rfl⟩

theorem Verify_congr (verify : PublicKey → DKGResultHash → Signature → Bool)
    (m m2 : ResultSigningMember Handle DKGResultHash PrivateKey PublicKey Signature)
    (hkeys : m2.peerPublicKeys = m.peerPublicKeys)
    (hash : DKGResultHash) (endorsement : Signature) (i : ParticipantIndex) :
    Verify verify m2 hash endorsement i = Verify verify m hash endorsement i := by
  unfold Verify
  rw [hkeys]

theorem AdmitPeer_accept [DecidableEq DKGResultHash]
    (verify : PublicKey → DKGResultHash → Signature → Bool)
    (m : ResultSigningMember Handle DKGResultHash PrivateKey PublicKey Signature)
    (peerIndex : ParticipantIndex) (peerHash : DKGResultHash) (endorsement : Signature)
    (hh : peerHash = m.dkgResultHash)
    (hv : Verify verify m peerHash endorsement peerIndex = true) :
    (AdmitPeer verify m peerIndex peerHash endorsement).validResultSignatures.entries
      = assign m.validResultSignatures.entries peerIndex endorsement ∧
    (AdmitPeer verify m peerIndex peerHash endorsement).peerPublicKeys = m.peerPublicKeys ∧
    (AdmitPeer verify m peerIndex peerHash endorsement).dkgResultHash = m.dkgResultHash := by
  simp [AdmitPeer, hh, hv, hh ▸ hv, GoMap.set]

/-- C9: in every state of a member, `validResultSignatures` holds at most one
signature per participant index: two stored entries with the same index carry
the same signature, no index occurs twice among the keys, and the number of
stored endorsements is the number of distinct signer indices. -/
theorem validResultSignatures_one_per_index
    (m : ResultSigningMember Handle DKGResultHash PrivateKey PublicKey Signature) :
    (∀ (i : ParticipantIndex) (s s2 : Signature),
      (i, s) ∈ m.validResultSignatures.entries → (i, s2) ∈ m.validResultSignatures.entries →
      s = s2) ∧
    m.validResultSignatures.keys.Nodup ∧
    m.validResultSignatures.len = distinctSigners m := by
  refine ⟨fun i s s2 h h2 => m.validResultSignatures.value_unique i s s2 h h2,
    m.validResultSignatures.nodup_keys, ?_⟩
  unfold distinctSigners
  rw [List.Nodup.dedup m.validResultSignatures.nodup_keys]
  simp [GoMap.len, GoMap.keys]

/-- C9 at the member whose map holds one endorsement, under index `0`. -/
theorem validResultSignatures_one_per_index_witness :
    zeroMember.validResultSignatures.len = distinctSigners zeroMember :=
  (validResultSignatures_one_per_index zeroMember).2.2

/-- C10: `QuorumSatisfied` is true if and only if the number of distinct stored
endorsements is at least the honest threshold; and with threshold 3, a member
that starts with no endorsement is below quorum after its own endorsement and
one valid peer endorsement, and at quorum after a valid endorsement of a second
peer. -/
theorem QuorumSatisfied_iff_threshold [DecidableEq DKGResultHash]
    (verify : PublicKey → DKGResultHash → Signature → Bool) (honestThreshold : Int)
    (m : ResultSigningMember Handle DKGResultHash PrivateKey PublicKey Signature) :
    (QuorumSatisfied honestThreshold m = true ↔ honestThreshold ≤ (distinctSigners m : Int)) ∧
    (∀ (own e2 e3 : Signature) (p2 p3 : ParticipantIndex),
      m.validResultSignatures.entries = [] →
      p2 ≠ m.index → p3 ≠ m.index → p2 ≠ p3 →
      Verify verify m m.dkgResultHash e2 p2 = true →
      Verify verify m m.dkgResultHash e3 p3 = true →
      QuorumSatisfied 3 (AdmitOwn m m.dkgResultHash own) = false ∧
      QuorumSatisfied 3
        (AdmitPeer verify (AdmitOwn m m.dkgResultHash own) p2 m.dkgResultHash e2) = false ∧
      QuorumSatisfied 3
        (AdmitPeer verify
          (AdmitPeer verify (AdmitOwn m m.dkgResultHash own) p2 m.dkgResultHash e2)
          p3 m.dkgResultHash e3) = true) := by
  constructor
  · have hlen : m.validResultSignatures.len = distinctSigners m := by
      unfold distinctSigners
      rw [List.Nodup.dedup m.validResultSignatures.nodup_keys]
      simp [GoMap.len, GoMap.keys]
    simp [QuorumSatisfied, hlen]
  · intro own e2 e3 p2 p3 hempty h2 h3 h23 hv2 hv3
    obtain ⟨ho, hko, hdo, -⟩ := AdmitOwn_entries m m.dkgResultHash own
    have hv2o : Verify verify (AdmitOwn m m.dkgResultHash own) m.dkgResultHash e2 p2 = true :=
      (Verify_congr verify m _ hko _ _ _).trans hv2
    obtain ⟨hp2, hk2, hd2⟩ :=
      AdmitPeer_accept verify (AdmitOwn m m.dkgResultHash own) p2 m.dkgResultHash e2
        hdo.symm hv2o
    have hv3o : Verify verify
        (AdmitPeer verify (AdmitOwn m m.dkgResultHash own) p2 m.dkgResultHash e2)
        m.dkgResultHash e3 p3 = true :=
      (Verify_congr verify m _ (hk2.trans hko) _ _ _).trans hv3
    obtain ⟨hp3, -, -⟩ :=
      AdmitPeer_accept verify
        (AdmitPeer verify (AdmitOwn m m.dkgResultHash own) p2 m.dkgResultHash e2)
        p3 m.dkgResultHash e3 (hd2.trans hdo).symm hv3o
    have hne2 : m.index ≠ p2 := fun h => h2 h.symm
    have hne3 : m.index ≠ p3 := fun h => h3 h.symm
    simp [QuorumSatisfied, GoMap.len, hp3, hp2, ho, assign, hempty, hne2, hne3, h23]

/-- C10 at participant 1 of a group of four with threshold 3, admitting its own
endorsement, then those of participants 2 and 3. -/
theorem QuorumSatisfied_iff_threshold_witness :
    QuorumSatisfied 3 (AdmitOwn firstOfFour 100 111) = false ∧
    QuorumSatisfied 3
      (AdmitPeer sumVerify (AdmitOwn firstOfFour 100 111) (participant 2) 100 112) = false ∧
    QuorumSatisfied 3
      (AdmitPeer sumVerify
        (AdmitPeer sumVerify (AdmitOwn firstOfFour 100 111) (participant 2) 100 112)
        (participant 3) 100 113) = true :=
  (QuorumSatisfied_iff_threshold sumVerify 3 firstOfFour).2 111 112 113
    (participant 2) (participant 3) rfl (by decide) (by decide) (by decide)
    (by decide) (by decide)

end claims

end resultsubmission

/-! ## Admission of peer endorsements -/

namespace resultsubmission

theorem assign_assign {K V : Type} [DecidableEq K] (l : List (K × V)) (k : K) (v : V) :
    assign (assign l k v) k v = assign l k v := by
  simp [assign, List.filter_filter]

theorem find_assign {K V : Type} [DecidableEq K] (l : List (K × V)) (k j : K) (v : V) :
    ((assign l k v).find? fun e => e.1 = j).map Prod.snd
      = if j = k then some v else (l.find? fun e => e.1 = j).map Prod.snd := by
  unfold assign
  by_cases hjk : j = k
  · subst hjk
    simp
  · have hkj : ¬ k = j := fun h => hjk h.symm
    rw [if_neg hjk, List.find?_cons_of_neg _ (by simpa using hkj)]
    congr 1
    induction l with
    | nil => rfl
    | cons x t ih =>
      by_cases hx : x.1 = k
      · have hxj : ¬ x.1 = j := fun h => hjk (h.symm.trans hx)
        rw [List.filter_cons_of_neg (by simpa using hx),
          List.find?_cons_of_neg _ (by simpa using hxj)]
        exact ih
      · rw [List.filter_cons_of_pos (by simpa using hx)]
        by_cases hxj : x.1 = j
        · rw [List.find?_cons_of_pos _ (by simpa using hxj),
            List.find?_cons_of_pos _ (by simpa using hxj)]
        · rw [List.find?_cons_of_neg _ (by simpa using hxj),
            List.find?_cons_of_neg _ (by simpa using hxj)]
          exact ih

theorem find_of_mem {K V : Type} [DecidableEq K] (l : List (K × V)) (k : K) (v : V)
    (hnd : l.Pairwise fun a b => a.1 ≠ b.1) (hmem : (k, v) ∈ l) :
    (l.find? fun e => e.1 = k).map Prod.snd = some v := by
  induction l with
  | nil => cases hmem
  | cons x t ih =>
    rw [List.pairwise_cons] at hnd
    by_cases hx : x.1 = k
    · rw [List.find?_cons_of_pos _ (by simpa using hx)]
      rcases List.mem_cons.mp hmem with h | h
      · rw [← h]
        rfl
      · exact absurd hx (hnd.1 (k, v) h)
    · rw [List.find?_cons_of_neg _ (by simpa using hx)]
      rcases List.mem_cons.mp hmem with h | h
      · rw [← h] at hx
        exact absurd rfl hx
      · exact ih hnd.2 h

theorem assign_perm_of_mem {K V : Type} [DecidableEq K] (l : List (K × V)) (k : K) (v : V)
    (hnd : l.Pairwise fun a b => a.1 ≠ b.1) (hmem : (k, v) ∈ l) :
    (assign l k v).Perm l := by
  induction l with
  | nil => cases hmem
  | cons x t ih =>
    rw [List.pairwise_cons] at hnd
    unfold assign
    by_cases hx : x.1 = k
    · have hxe : x = (k, v) := by
        rcases List.mem_cons.mp hmem with h | h
        · exact h.symm
        · exact absurd hx (hnd.1 (k, v) h)
      have hfilter : (t.filter fun e => e.1 ≠ k) = t := by
        apply List.filter_eq_self.mpr
        intro e he
        have := hnd.1 e he
        rw [hx] at this
        simpa using fun h => this h.symm
      rw [List.filter_cons_of_neg (by simpa using hx), hfilter, hxe]
    · have hmem2 : (k, v) ∈ t := by
        rcases List.mem_cons.mp hmem with h | h
        · rw [← h] at hx
          exact absurd rfl hx
        · exact h
      rw [List.filter_cons_of_pos (by simpa using hx)]
      exact (List.Perm.swap x (k, v) _).trans (List.Perm.cons x (ih hnd.2 hmem2))

theorem GoMap.set_set {K V : Type} [DecidableEq K] (m : GoMap K V) (k : K) (v : V) :
    (m.set k v).set k v = m.set k v := by
  have h : ((m.set k v).set k v).entries = (m.set k v).entries := assign_assign m.entries k v
  cases hm : (m.set k v).set k v with
  | mk e1 b1 =>
    cases hm2 : m.set k v with
    | mk e2 b2 =>
      rw [hm, hm2] at h
      simp only at h
      subst h
      rfl

section admission

variable {Handle DKGResultHash PrivateKey PublicKey Signature : Type}

theorem distinctSigners_eq_len
    (m : ResultSigningMember Handle DKGResultHash PrivateKey PublicKey Signature) :
    distinctSigners m = m.validResultSignatures.len := by
  unfold distinctSigners
  rw [List.Nodup.dedup m.validResultSignatures.nodup_keys]
  simp [GoMap.len, GoMap.keys]

theorem AdmitPeer_accept_eq [DecidableEq DKGResultHash]
    (verify : PublicKey → DKGResultHash → Signature → Bool)
    (m : ResultSigningMember Handle DKGResultHash PrivateKey PublicKey Signature)
    (peerIndex : ParticipantIndex) (peerHash : DKGResultHash) (endorsement : Signature)
    (hh : peerHash = m.dkgResultHash)
    (hv : Verify verify m peerHash endorsement peerIndex = true) :
    AdmitPeer verify m peerIndex peerHash endorsement
      = { m with validResultSignatures := m.validResultSignatures.set peerIndex endorsement } := by
  simp [AdmitPeer, hh, hh ▸ hv]

/-- C11: `AdmitPeer` with a peer hash other than the member's preferred
`dkgResultHash` leaves the member as it was, for every peer index and every
signature: the stored endorsements, their number and the quorum predicate are
unchanged. -/
theorem AdmitPeer_other_hash [DecidableEq DKGResultHash]
    (verify : PublicKey → DKGResultHash → Signature → Bool)
    (m : ResultSigningMember Handle DKGResultHash PrivateKey PublicKey Signature)
    (peerIndex : ParticipantIndex) (peerHash : DKGResultHash) (endorsement : Signature)
    (hne : peerHash ≠ m.dkgResultHash) :
    AdmitPeer verify m peerIndex peerHash endorsement = m ∧
    (AdmitPeer verify m peerIndex peerHash endorsement).validResultSignatures.entries
      = m.validResultSignatures.entries ∧
    (AdmitPeer verify m peerIndex peerHash endorsement).validResultSignatures.len
      = m.validResultSignatures.len ∧
    distinctSigners (AdmitPeer verify m peerIndex peerHash endorsement) = distinctSigners m ∧
    ∀ honestThreshold : Int,
      QuorumSatisfied honestThreshold (AdmitPeer verify m peerIndex peerHash endorsement)
        = QuorumSatisfied honestThreshold m := by
  have h : AdmitPeer verify m peerIndex peerHash endorsement = m := by
    unfold AdmitPeer
    rw [if_pos hne]
  rw [h]
  exact ⟨rfl, rfl, rfl, rfl, fun _ => rfl⟩

/-- C11 at participant 1 of a group of four holding three endorsements:
participant 4 endorses hash 101, not the preferred hash 100, with a signature
that is valid for hash 101. -/
theorem AdmitPeer_other_hash_witness :
    Verify sumVerify firstOfFourCollecting 101 115 (participant 4) = true ∧
    AdmitPeer sumVerify firstOfFourCollecting (participant 4) 101 115 = firstOfFourCollecting ∧
    (AdmitPeer sumVerify firstOfFourCollecting (participant 4) 101 115).validResultSignatures.len
      = 3 :=
  ⟨by decide,
    (AdmitPeer_other_hash sumVerify firstOfFourCollecting (participant 4) 101 115
      (by decide)).1,
    ((AdmitPeer_other_hash sumVerify firstOfFourCollecting (participant 4) 101 115
      (by decide)).2.2.1).trans (by decide)⟩

/-- C12: admission of a valid peer endorsement is idempotent: admitting the
same valid endorsement from the same peer index twice gives the state of
admitting it once; and admitting a valid endorsement that is already stored
under that index leaves the stored endorsements (as a set of entries and at
every index) and their number unchanged. -/
theorem AdmitPeer_idempotent [DecidableEq DKGResultHash]
    (verify : PublicKey → DKGResultHash → Signature → Bool)
    (m : ResultSigningMember Handle DKGResultHash PrivateKey PublicKey Signature)
    (peerIndex : ParticipantIndex) (peerHash : DKGResultHash) (endorsement : Signature)
    (hh : peerHash = m.dkgResultHash)
    (hv : Verify verify m peerHash endorsement peerIndex = true) :
    AdmitPeer verify (AdmitPeer verify m peerIndex peerHash endorsement)
        peerIndex peerHash endorsement
      = AdmitPeer verify m peerIndex peerHash endorsement ∧
    ((peerIndex, endorsement) ∈ m.validResultSignatures.entries →
      (AdmitPeer verify m peerIndex peerHash endorsement).validResultSignatures.entries.Perm
        m.validResultSignatures.entries ∧
      (∀ k, (AdmitPeer verify m peerIndex peerHash endorsement).validResultSignatures.get? k
        = m.validResultSignatures.get? k) ∧
      (AdmitPeer verify m peerIndex peerHash endorsement).validResultSignatures.len
        = m.validResultSignatures.len ∧
      distinctSigners (AdmitPeer verify m peerIndex peerHash endorsement)
        = distinctSigners m) := by
  have h1 := AdmitPeer_accept_eq verify m peerIndex peerHash endorsement hh hv
  constructor
  · have hv1 : Verify verify
        { m with validResultSignatures := m.validResultSignatures.set peerIndex endorsement }
        peerHash endorsement peerIndex = true := hv
    have h2 := AdmitPeer_accept_eq verify
      { m with validResultSignatures := m.validResultSignatures.set peerIndex endorsement }
      peerIndex peerHash endorsement hh hv1
    rw [h1, h2]
    simp only [GoMap.set_set]
  · intro hmem
    have hnd : m.validResultSignatures.entries.Pairwise fun a b => a.1 ≠ b.1 :=
      List.pairwise_map.mp m.validResultSignatures.nodup_keys
    have hentries :
        (AdmitPeer verify m peerIndex peerHash endorsement).validResultSignatures.entries
          = assign m.validResultSignatures.entries peerIndex endorsement := by
      rw [h1]
      rfl
    have hperm := assign_perm_of_mem m.validResultSignatures.entries peerIndex endorsement
      hnd hmem
    have hlen : (AdmitPeer verify m peerIndex peerHash endorsement).validResultSignatures.len
        = m.validResultSignatures.len := by
      unfold GoMap.len
      rw [hentries]
      exact hperm.length_eq
    refine ⟨hentries ▸ hperm, ?_, hlen, ?_⟩
    · intro k
      unfold GoMap.get?
      rw [hentries, find_assign]
      by_cases hk : k = peerIndex
      · rw [if_pos hk, hk]
        exact (find_of_mem _ peerIndex endorsement hnd hmem).symm
      · rw [if_neg hk]
    · rw [distinctSigners_eq_len, distinctSigners_eq_len, hlen]

/-- C12 at participant 1 of a group of four holding three endorsements, to
which the endorsement of participant 2 is delivered once more. -/
theorem AdmitPeer_idempotent_witness :
    (participant 2, 112) ∈ firstOfFourCollecting.validResultSignatures.entries ∧
    (AdmitPeer sumVerify firstOfFourCollecting (participant 2) 100 112).validResultSignatures.len
      = firstOfFourCollecting.validResultSignatures.len ∧
    AdmitPeer sumVerify (AdmitPeer sumVerify firstOfFourCollecting (participant 2) 100 112)
        (participant 2) 100 112
      = AdmitPeer sumVerify firstOfFourCollecting (participant 2) 100 112 :=
  ⟨by decide,
    ((AdmitPeer_idempotent sumVerify firstOfFourCollecting (participant 2) 100 112
      rfl (by decide)).2 (by decide)).2.2.1,
    (AdmitPeer_idempotent sumVerify firstOfFourCollecting (participant 2) 100 112
      rfl (by decide)).1⟩

end admission

end resultsubmission

/-! ## Equality of results: algebra, safety and list conventions -/

namespace gjkr

theorem publicKeysEqual_total_self {G2 : Type} (str : G2 → String) (k : Option G2) :
    publicKeysEqual (fun e => some (str e)) k k = some true :=
  publicKeysEqual_self _ k fun e _ => ⟨str e, rfl⟩

/-- C15: `memberIDSlicesEqual` never indexes out of bounds and is total: it
returns a boolean for every pair of slices, nil slices included; with
different lengths it returns false without entering the loop; with equal
lengths every index the loop visits is within both slices. -/
theorem memberIDSlicesEqual_index_safe {MemberID : Type} [DecidableEq MemberID]
    (xs ys : Slice MemberID) :
    (∃ v, memberIDSlicesEqual xs ys = some v) ∧
    (xs.len ≠ ys.len → memberIDSlicesEqual xs ys = some false) ∧
    (xs.len = ys.len →
      memberIDSlicesEqual xs ys = memberIDSlicesEqual.loop xs ys (List.range xs.len) ∧
      ∀ i ∈ List.range xs.len,
        i < xs.len ∧ i < ys.len ∧ (∃ e, xs.index i = some e) ∧ ∃ a, ys.index i = some a) ∧
    memberIDSlicesEqual (none : Slice MemberID) none = some true ∧
    (∃ v, memberIDSlicesEqual none ys = some v) ∧
    (∃ v, memberIDSlicesEqual xs none = some v) := by
  refine ⟨⟨_, memberIDSlicesEqual_eq_decide xs ys⟩, ?_, ?_, ?_,
    ⟨_, memberIDSlicesEqual_eq_decide none ys⟩, ⟨_, memberIDSlicesEqual_eq_decide xs none⟩⟩
  · intro hne
    unfold memberIDSlicesEqual
    rw [if_pos hne]
  · intro heq
    constructor
    · unfold memberIDSlicesEqual
      rw [if_neg (by simpa using heq)]
    · intro i hi
      have hlt : i < xs.len := List.mem_range.mp hi
      have hlt2 : i < ys.len := heq ▸ hlt
      exact ⟨hlt, hlt2, Slice.index_of_lt xs i hlt, Slice.index_of_lt ys i hlt2⟩
  · rfl

/-- C15 at two slices of length 2: the loop visits the indices 0 and 1, both
within the two slices. -/
theorem memberIDSlicesEqual_index_safe_witness :
    memberIDSlicesEqual (some [4, 5]) (some [4, 6])
        = memberIDSlicesEqual.loop (some [4, 5]) (some [4, 6]) (List.range 2) ∧
    ∀ i ∈ List.range 2, i < 2 ∧ i < 2 ∧
      (∃ e, Slice.index (some [4, 5]) i = some e) ∧ ∃ a, Slice.index (some [4, 6]) i = some a :=
  (memberIDSlicesEqual_index_safe (some [4, 5]) (some [4, 6])).2.2.1 rfl

/-- C13 (refuted as stated): `duplicateResult` is a `Result` whose Disqualified
list and whose Inactive list each repeat a member ID, and `Equals` handles it
like any other result; so not every `Result` has duplicate-free lists. -/
theorem Result_duplicates_counterexample :
    ¬ (∀ r : Result Nat Nat, r.Disqualified.toList.Nodup ∧ r.Inactive.toList.Nodup) ∧
    ¬ duplicateResult.Disqualified.toList.Nodup ∧
    ¬ duplicateResult.Inactive.toList.Nodup ∧
    Equals (fun n : Nat => some (toString n)) (some duplicateResult) (some duplicateResult)
      = some true := by
  have hd : ¬ duplicateResult.Disqualified.toList.Nodup := by
    simp [duplicateResult, Slice.toList]
  have hi : ¬ duplicateResult.Inactive.toList.Nodup := by
    simp [duplicateResult, Slice.toList]
  refine ⟨fun h => hd (h duplicateResult).1, hd, hi, ?_⟩
  exact (Equals_some_true_iff _ _ _).mpr ⟨publicKeysEqual_total_self _ _, rfl, rfl⟩

/-- C13 (amended): the `Result` type does not exclude duplicates, and `Equals`
respects their absence: when two results compare equal, the Disqualified list
of one is duplicate-free exactly when that of the other is, and likewise for
Inactive. -/
theorem Equals_preserves_nodup {G2 MemberID : Type} [DecidableEq MemberID]
    (str : G2 → Option String)
    (a b : Result G2 MemberID) (h : Equals str (some a) (some b) = some true) :
    (a.Disqualified.toList.Nodup ↔ b.Disqualified.toList.Nodup) ∧
    (a.Inactive.toList.Nodup ↔ b.Inactive.toList.Nodup) := by
  obtain ⟨-, hd, hi⟩ := (Equals_some_true_iff str a b).mp h
  rw [hd, hi]
  exact ⟨Iff.rfl, Iff.rfl⟩

/-- C13 (amended) at two equal results with duplicate-free lists. -/
theorem Equals_preserves_nodup_witness :
    (([1, 2] : List Nat).Nodup ↔ ([1, 2] : List Nat).Nodup) ∧
    (([] : List Nat).Nodup ↔ ([] : List Nat).Nodup) :=
  Equals_preserves_nodup (fun n : Nat => some (toString n))
    ⟨some 7, some [1, 2], none, some 5⟩ ⟨some 7, some [1, 2], some [], none⟩
    ((Equals_some_true_iff _ _ _).mpr ⟨publicKeysEqual_total_self _ _, rfl, rfl⟩)

/-- C16 (refuted as stated): two non-nil results with the same group key, one
with a nil Disqualified list and the other with an empty non-nil one, whose
Inactive lists differ: `Equals` returns false. -/
theorem Equals_nil_empty_counterexample :
    publicKeysEqual (fun n : Nat => some (toString n)) (some 7) (some 7) = some true ∧
    Equals (fun n : Nat => some (toString n))
      (some (⟨some 7, none, some [1], none⟩ : Result Nat Nat))
      (some ⟨some 7, some [], some [2], none⟩) = some false := by
  refine ⟨publicKeysEqual_total_self _ _, ?_⟩
  rw [Equals_some_eq, publicKeysEqual_total_self]
  simp [Slice.toList]

/-- C16 (amended): a nil member list and an empty non-nil member list are not
distinguished: for two non-nil results with equal group keys, where one has
Disqualified nil and the other has it empty and non-nil, `Equals` returns true
when the Inactive lists are the same sequence; and the same with the roles of
Disqualified and Inactive exchanged. -/
theorem Equals_nil_empty_list {G2 MemberID : Type} [DecidableEq MemberID]
    (str : G2 → Option String) (a b : Result G2 MemberID)
    (hkey : publicKeysEqual str a.GroupPublicKey b.GroupPublicKey = some true) :
    ((a.Disqualified = none ∧ b.Disqualified = some []) ∨
        (a.Disqualified = some [] ∧ b.Disqualified = none) →
      sameSequence a.Inactive b.Inactive → Equals str (some a) (some b) = some true) ∧
    ((a.Inactive = none ∧ b.Inactive = some []) ∨
        (a.Inactive = some [] ∧ b.Inactive = none) →
      sameSequence a.Disqualified b.Disqualified →
      Equals str (some a) (some b) = some true) := by
  constructor
  · intro hd hi
    rw [sameSequence_iff_toList] at hi
    apply (Equals_some_true_iff str a b).mpr
    refine ⟨hkey, ?_, hi⟩
    rcases hd with ⟨h, h2⟩ | ⟨h, h2⟩ <;> rw [h, h2] <;> rfl
  · intro hi hd
    rw [sameSequence_iff_toList] at hd
    apply (Equals_some_true_iff str a b).mpr
    refine ⟨hkey, hd, ?_⟩
    rcases hi with ⟨h, h2⟩ | ⟨h, h2⟩ <;> rw [h, h2] <;> rfl

/-- C16 (amended) at a result with nil Disqualified and a result with empty
Disqualified, same group key and same Inactive list. -/
theorem Equals_nil_empty_list_witness :
    Equals (fun n : Nat => some (toString n))
      (some (⟨some 7, none, some [3], some 5⟩ : Result Nat Nat))
      (some ⟨some 7, some [], some [3], none⟩) = some true :=
  (Equals_nil_empty_list (fun n : Nat => some (toString n))
    ⟨some 7, none, some [3], some 5⟩ ⟨some 7, some [], some [3], none⟩
    (publicKeysEqual_total_self _ _)).1 (Or.inl ⟨rfl, rfl⟩)
    ((sameSequence_iff_toList _ _).mpr rfl)

end gjkr

